import Mathlib

/-!
Verification of the resilient request pipeline of the digikala-sdk client
library: request parameter validation (`DefaultValidator.validate_params` in
`src/implementations.py`), cache-key generation (`generate_cache_key`), the
retry/backoff engine (`BaseService._execute_with_retry` in
`src/services/base.py`), the circuit breaker (`DefaultCircuitBreaker`), the
typed response envelope (`BaseResponse.validate_status` in
`src/models/common_models.py`, `APIStatusError.from_response` in
`src/exceptions.py`) and header derivation (`DigikalaConfig.get_headers` in
`src/config.py`).

Python floats that only carry time durations are modelled as rationals;
Python `str` as Lean `String` (the case-insensitive comparison of the
validator, which only has to recognise ASCII patterns, is modelled by
ASCII lowercasing); JSON-like parameter trees as the inductive `Value`.
Exceptions are modelled by `Except` results.
-/

namespace DigikalaSDK

/-- Decidable equality for `Except`, needed to evaluate model results. -/
def exceptDecEq {ε α : Type} [DecidableEq ε] [DecidableEq α] :
    (a b : Except ε α) → Decidable (a = b)
  | .error e, .error f => decidable_of_iff (e = f) (by simp)
  | .ok a, .ok b => decidable_of_iff (a = b) (by simp)
  | .error _, .ok _ => isFalse (by simp)
  | .ok _, .error _ => isFalse (by simp)

instance {ε α : Type} [DecidableEq ε] [DecidableEq α] : DecidableEq (Except ε α) :=
  exceptDecEq

/-- A Python/JSON parameter value: the `params` argument of
`validate_params` is a dict whose values are strings, numbers, booleans,
`None`, nested dicts, or lists. -/
inductive Value where
  | str (s : String)
  | num (n : Int)
  | bool (b : Bool)
  | null
  | dict (entries : List (String × Value))
  | list (items : List Value)
deriving Repr

mutual

def valueDecEq : (a b : Value) → Decidable (a = b)
  | .str s, .str t => decidable_of_iff (s = t) (by simp)
  | .num m, .num n => decidable_of_iff (m = n) (by simp)
  | .bool x, .bool y => decidable_of_iff (x = y) (by simp)
  | .null, .null => isTrue rfl
  | .dict es, .dict fs =>
      match entriesDecEq es fs with
      | isTrue h => isTrue (by rw [h])
      | isFalse h => isFalse (by simp [h])
  | .list vs, .list ws =>
      match itemsDecEq vs ws with
      | isTrue h => isTrue (by rw [h])
      | isFalse h => isFalse (by simp [h])
  | .str _, .num _ => isFalse (by simp)
  | .str _, .bool _ => isFalse (by simp)
  | .str _, .null => isFalse (by simp)
  | .str _, .dict _ => isFalse (by simp)
  | .str _, .list _ => isFalse (by simp)
  | .num _, .str _ => isFalse (by simp)
  | .num _, .bool _ => isFalse (by simp)
  | .num _, .null => isFalse (by simp)
  | .num _, .dict _ => isFalse (by simp)
  | .num _, .list _ => isFalse (by simp)
  | .bool _, .str _ => isFalse (by simp)
  | .bool _, .num _ => isFalse (by simp)
  | .bool _, .null => isFalse (by simp)
  | .bool _, .dict _ => isFalse (by simp)
  | .bool _, .list _ => isFalse (by simp)
  | .null, .str _ => isFalse (by simp)
  | .null, .num _ => isFalse (by simp)
  | .null, .bool _ => isFalse (by simp)
  | .null, .dict _ => isFalse (by simp)
  | .null, .list _ => isFalse (by simp)
  | .dict _, .str _ => isFalse (by simp)
  | .dict _, .num _ => isFalse (by simp)
  | .dict _, .bool _ => isFalse (by simp)
  | .dict _, .null => isFalse (by simp)
  | .dict _, .list _ => isFalse (by simp)
  | .list _, .str _ => isFalse (by simp)
  | .list _, .num _ => isFalse (by simp)
  | .list _, .bool _ => isFalse (by simp)
  | .list _, .null => isFalse (by simp)
  | .list _, .dict _ => isFalse (by simp)

def entriesDecEq : (a b : List (String × Value)) → Decidable (a = b)
  | [], [] => isTrue rfl
  | [], _ :: _ => isFalse (by simp)
  | _ :: _, [] => isFalse (by simp)
  | (k, v) :: rest, (k2, v2) :: rest2 =>
      if hk : k = k2 then
        match valueDecEq v v2, entriesDecEq rest rest2 with
        | isTrue hv, isTrue hr => isTrue (by rw [hk, hv, hr])
        | isFalse hv, _ => isFalse (by simp [hv])
        | _, isFalse hr => isFalse (by simp [hr])
      else isFalse (by simp [hk])

def itemsDecEq : (a b : List Value) → Decidable (a = b)
  | [], [] => isTrue rfl
  | [], _ :: _ => isFalse (by simp)
  | _ :: _, [] => isFalse (by simp)
  | v :: rest, v2 :: rest2 =>
      match valueDecEq v v2, itemsDecEq rest rest2 with
      | isTrue hv, isTrue hr => isTrue (by rw [hv, hr])
      | isFalse hv, _ => isFalse (by simp [hv])
      | _, isFalse hr => isFalse (by simp [hr])

end

instance : DecidableEq Value := valueDecEq

/-! ### Request validator (`DefaultValidator` in `src/implementations.py`)

`MAX_PARAM_KEY_LENGTH = 512`, `MAX_PARAM_VALUE_LENGTH = 200000`. -/

/-- ASCII lowercasing of one character, modelling `str.lower` on the ASCII
range (the suspicious patterns are all ASCII). -/
def lowerChar (c : Char) : Char :=
  if 'A' ≤ c ∧ c ≤ 'Z' then Char.ofNat (c.toNat + 32) else c

/-- ASCII lowercasing of a string, modelling `value.lower()`. -/
def lowerAscii (s : String) : String :=
  String.mk (s.toList.map lowerChar)

/-- Substring containment on character lists, modelling Python `in` on `str`. -/
def listContains (pat : List Char) : List Char → Bool
  | [] => pat.isEmpty
  | c :: rest => pat.isPrefixOf (c :: rest) || listContains pat rest

/-- Substring containment, modelling `pattern in value_lower`. -/
def strContains (s pat : String) : Bool :=
  listContains pat.toList s.toList

/-- The `suspicious_patterns` list of `DefaultValidator.validate_params`,
in source order: path traversal, protocol injection, XSS attempt,
JavaScript injection, null byte injection. -/
def suspiciousPatterns : List String :=
  ["../", "://", "<script", "javascript:", "\x00"]

/-- The first suspicious pattern contained in `low` (the already lowercased
string), mirroring the `for pattern in suspicious_patterns` loop. -/
def findPattern (low : String) : Option String :=
  suspiciousPatterns.find? (fun pat => strContains low pat)

/-- The `MAX_PARAM_KEY_LENGTH` class constant. -/
def MAX_PARAM_KEY_LENGTH : Nat := 512

/-- The `MAX_PARAM_VALUE_LENGTH` class constant. -/
def MAX_PARAM_VALUE_LENGTH : Nat := 200000

/-- A `ValueError` raised by `validate_params`, identified by which of the
three `raise` sites produced it:  an over-long key, an over-long string
value, or a suspicious pattern.  Each carries the data interpolated into
the Python message (key, or `current_path`, and the matched pattern). -/
inductive ValidationFailure where
  | keyTooLong (key : String)
  | valueTooLong (path : String)
  | suspicious (path : String) (pat : String)
deriving DecidableEq, Repr

/-- The pseudo-key `f"[{idx}]"` used for list items. -/
def listKey (idx : Nat) : String :=
  "[" ++ toString idx ++ "]"

/-- The `current_path` computation `f"{path}.{key}" if path else key`. -/
def currentPath (path key : String) : String :=
  if path = "" then key else path ++ "." ++ key

mutual

/-- The inner `_check_value(key, value, path)` of
`DefaultValidator.validate_params`: checks the key length, then for string
values the value length and the suspicious patterns, and recurses into
dicts and lists.  Note that only the key LENGTH is checked; keys are not
searched for suspicious patterns. -/
def checkValue (key : String) (path : String) (v : Value) : Except ValidationFailure Unit :=
  if key.length > MAX_PARAM_KEY_LENGTH then .error (.keyTooLong key)
  else match v with
    | .str s =>
        if s.length > MAX_PARAM_VALUE_LENGTH then .error (.valueTooLong (currentPath path key))
        else match findPattern (lowerAscii s) with
          | some pat => .error (.suspicious (currentPath path key) pat)
          | none => .ok ()
    | .dict es => checkEntries es (currentPath path key)
    | .list vs => checkItems vs 0 (currentPath path key)
    | _ => .ok ()

/-- The `for nested_key, nested_value in value.items()` recursion of
`_check_value` over a nested dict (also used for the top-level
`for key, value in params.items()` loop, whose `path` is empty). -/
def checkEntries (es : List (String × Value)) (path : String) : Except ValidationFailure Unit :=
  match es with
  | [] => .ok ()
  | (k, v) :: rest => do
      checkValue k path v
      checkEntries rest path

/-- The `for idx, item in enumerate(value)` recursion of `_check_value`
over a list value. -/
def checkItems (vs : List Value) (idx : Nat) (path : String) : Except ValidationFailure Unit :=
  match vs with
  | [] => .ok ()
  | v :: rest => do
      checkValue (listKey idx) path v
      checkItems rest (idx + 1) path

end

/-- `DefaultValidator.validate_params(params)`: iterate `_check_value` over
the top-level parameter dict; the first `ValueError` aborts validation. -/
def validateParams (params : List (String × Value)) : Except ValidationFailure Unit :=
  checkEntries params ""

mutual

/-- All length limits hold inside `v` when reached under key `key`:
the key is at most 512 characters and every nested key/string value obeys
its limit.  Mirrors exactly the length conditions `checkValue` tests. -/
def lenOkValue (key : String) (v : Value) : Bool :=
  key.length ≤ MAX_PARAM_KEY_LENGTH &&
    match v with
    | .str s => s.length ≤ MAX_PARAM_VALUE_LENGTH
    | .dict es => lenOkEntries es
    | .list vs => lenOkItems vs 0
    | _ => true

/-- All length limits hold in a (nested or top-level) dict. -/
def lenOkEntries (es : List (String × Value)) : Bool :=
  match es with
  | [] => true
  | (k, v) :: rest => lenOkValue k v && lenOkEntries rest

/-- All length limits hold in a list whose first item has index `idx`. -/
def lenOkItems (vs : List Value) (idx : Nat) : Bool :=
  match vs with
  | [] => true
  | v :: rest => lenOkValue (listKey idx) v && lenOkItems rest (idx + 1)

end

mutual

/-- Some string value nested in `v` contains a suspicious pattern
(keys are never pattern-checked by `DefaultValidator`). -/
def suspValue (v : Value) : Bool :=
  match v with
  | .str s => (findPattern (lowerAscii s)).isSome
  | .dict es => suspEntries es
  | .list vs => suspItems vs
  | _ => false

/-- Some string value nested in a dict contains a suspicious pattern. -/
def suspEntries (es : List (String × Value)) : Bool :=
  match es with
  | [] => false
  | (_, v) :: rest => suspValue v || suspEntries rest

/-- Some string value nested in a list contains a suspicious pattern. -/
def suspItems (vs : List Value) : Bool :=
  match vs with
  | [] => false
  | v :: rest => suspValue v || suspItems rest

end

/-- A failure stemming from one of the two length `raise` sites. -/
def ValidationFailure.isLengthError : ValidationFailure → Bool
  | .keyTooLong _ => true
  | .valueTooLong _ => true
  | .suspicious _ _ => false

/-- A failure stemming from the suspicious-pattern `raise` site. -/
def ValidationFailure.isSuspicious : ValidationFailure → Bool
  | .suspicious _ _ => true
  | _ => false

/-! ### Cache-key generation (`generate_cache_key` in `src/implementations.py`)

`json.dumps(params or \x7b\x7d, sort_keys=True)` followed by
`hashlib.blake2b(..., digest_size=16).hexdigest()`.  The JSON serializer is
modelled with the default CPython settings (item separator `", "`,
key separator `": "`, `ensure_ascii=True`, keys sorted by code point), and
blake2b is modelled from its RFC 7693 specification (unkeyed, 16-byte
digest), since `hashlib` is the Python standard library. -/

/-- Lowercase hexadecimal digits. -/
def hexDigits : List Char := "0123456789abcdef".toList

/-- Hexadecimal digit of `n % 16`. -/
def hexDigit (n : Nat) : Char := hexDigits.getD (n % 16) '0'

/-- Four hexadecimal digits of a 16-bit value (for `\uXXXX` escapes). -/
def hex4 (n : Nat) : String :=
  String.mk [hexDigit (n / 4096), hexDigit (n / 256), hexDigit (n / 16), hexDigit n]

/-- CPython `json` ASCII escaping of a single character (`ensure_ascii=True`):
backslash, quote and the named control characters get two-character escapes,
other control characters and all non-ASCII characters get `\uXXXX` escapes
(a surrogate pair beyond the basic multilingual plane). -/
def escapeChar (c : Char) : String :=
  if c = '\\' then "\\\\"
  else if c = '"' then "\\\""
  else if c = '\n' then "\\n"
  else if c = '\r' then "\\r"
  else if c = '\t' then "\\t"
  else if c.toNat = 8 then "\\b"
  else if c.toNat = 12 then "\\f"
  else if c.toNat < 0x20 then "\\u" ++ hex4 c.toNat
  else if c.toNat < 0x7f then String.mk [c]
  else if c.toNat < 0x10000 then "\\u" ++ hex4 c.toNat
  else
    let v := c.toNat - 0x10000
    "\\u" ++ hex4 (0xd800 + v / 0x400) ++ "\\u" ++ hex4 (0xdc00 + v % 0x400)

/-- A JSON string literal: quoted, escaped. -/
def quoteJson (s : String) : String :=
  "\"" ++ String.join (s.toList.map escapeChar) ++ "\""

/-- Code-point comparison of character lists (Python `str` ordering). -/
def charListLe : List Char → List Char → Bool
  | [], _ => true
  | c :: cs, d :: ds =>
      if c.toNat < d.toNat then true
      else if d.toNat < c.toNat then false
      else charListLe cs ds
  | _ :: _, [] => false

/-- Python string comparison `a <= b` by code points. -/
def keyLe (a b : String) : Bool := charListLe a.toList b.toList

/-- Ordering of dict entries by key, as used by `sorted(dict.items())`
under `sort_keys=True` (keys in a dict are distinct, so the key decides). -/
def entryLe (a b : String × Value) : Prop := keyLe a.1 b.1 = true

instance : DecidableRel entryLe := fun a b => by
  unfold entryLe; infer_instance

/-- Sorting the entries of a dict by key (`sort_keys=True`). -/
def sortEntries (es : List (String × Value)) : List (String × Value) :=
  List.insertionSort entryLe es

/-- Comma-space separated concatenation (default `item_separator`). -/
def joinComma (parts : List String) : String := String.intercalate ", " parts

/-- CPython `json.dumps(v, sort_keys=True)`: strings quoted and escaped,
booleans and `None` as their JSON literals, lists bracketed, dicts braced
with the entries sorted by key and serialized as `"key": value`. -/
def dumpsValue : Value → String
  | .str s => quoteJson s
  | .num n => toString n
  | .bool b => if b then "true" else "false"
  | .null => "null"
  | .list items =>
      "[" ++ joinComma (items.attach.map (fun x => dumpsValue x.1)) ++ "]"
  | .dict es =>
      "\x7b" ++
        joinComma ((sortEntries es).attach.map
          (fun x => quoteJson x.1.1 ++ ": " ++ dumpsValue x.1.2)) ++
        "\x7d"
termination_by v => sizeOf v
decreasing_by
  · have h1 := List.sizeOf_lt_of_mem x.2
    simp only [Value.list.sizeOf_spec]
    omega
  · have hmem : x.1 ∈ es := ((List.perm_insertionSort entryLe es).mem_iff).mp x.2
    have h1 := List.sizeOf_lt_of_mem hmem
    have h2 : sizeOf x.1.2 < sizeOf x.1 := by
      obtain ⟨k, v⟩ := x.1
      simp only [Prod.mk.sizeOf_spec]
      omega
    simp only [Value.dict.sizeOf_spec]
    omega

/-- UTF-8 bytes of one character (Python `str.encode()`). -/
def charUtf8 (c : Char) : List Nat :=
  let n := c.toNat
  if n < 0x80 then [n]
  else if n < 0x800 then [0xc0 + n / 64, 0x80 + n % 64]
  else if n < 0x10000 then [0xe0 + n / 4096, 0x80 + n / 64 % 64, 0x80 + n % 64]
  else [0xf0 + n / 262144, 0x80 + n / 4096 % 64, 0x80 + n / 64 % 64, 0x80 + n % 64]

/-- Concatenation of byte chunks. -/
def flatBytes : List (List Nat) → List Nat
  | [] => []
  | l :: ls => l ++ flatBytes ls

/-- UTF-8 encoding of a string (`cache_string.encode()`). -/
def utf8Bytes (s : String) : List Nat := flatBytes (s.toList.map charUtf8)

/-- Reduction to a 64-bit word. -/
def wrap64 (x : Nat) : Nat := x % 2 ^ 64

/-- Right rotation of a 64-bit word by `n` (0 < n < 64) bits. -/
def rotr64 (x n : Nat) : Nat := wrap64 (x >>> n ||| x <<< (64 - n))

/-- The blake2b initialization vector (RFC 7693 section 2.6). -/
def blakeIV : List Nat :=
  [0x6a09e667f3bcc908, 0xbb67ae8584caa73b, 0x3c6ef372fe94f82b, 0xa54ff53a5f1d36f1,
   0x510e527fade682d1, 0x9b05688c2b3e6c1f, 0x1f83d9abfb41bd6b, 0x5be0cd19137e2179]

/-- The blake2 message schedule SIGMA (RFC 7693 section 2.7). -/
def blakeSigma : List (List Nat) :=
  [[0, 1, 2, 3, 4, 5, 6, 7, 8, 9, 10, 11, 12, 13, 14, 15],
   [14, 10, 4, 8, 9, 15, 13, 6, 1, 12, 0, 2, 11, 7, 5, 3],
   [11, 8, 12, 0, 5, 2, 15, 13, 10, 14, 3, 6, 7, 1, 9, 4],
   [7, 9, 3, 1, 13, 12, 11, 14, 2, 6, 5, 10, 4, 0, 15, 8],
   [9, 0, 5, 7, 2, 4, 10, 15, 14, 1, 11, 12, 6, 8, 3, 13],
   [2, 12, 6, 10, 0, 11, 8, 3, 4, 13, 7, 5, 15, 14, 1, 9],
   [12, 5, 1, 15, 14, 13, 4, 10, 0, 7, 6, 3, 9, 2, 8, 11],
   [13, 11, 7, 14, 12, 1, 3, 9, 5, 0, 15, 4, 8, 6, 2, 10],
   [6, 15, 14, 9, 11, 3, 0, 8, 12, 2, 13, 7, 1, 4, 10, 5],
   [10, 2, 8, 4, 7, 6, 1, 5, 15, 11, 9, 14, 3, 12, 13, 0]]

/-- The blake2b mixing function G on the work vector `v` at indices
`a b c d` with message words `x y` (rotations 32, 24, 16, 63). -/
def blakeG (v : List Nat) (a b c d x y : Nat) : List Nat :=
  let va := wrap64 (v.getD a 0 + v.getD b 0 + x)
  let vd := rotr64 (v.getD d 0 ^^^ va) 32
  let vc := wrap64 (v.getD c 0 + vd)
  let vb := rotr64 (v.getD b 0 ^^^ vc) 24
  let va2 := wrap64 (va + vb + y)
  let vd2 := rotr64 (vd ^^^ va2) 16
  let vc2 := wrap64 (vc + vd2)
  let vb2 := rotr64 (vb ^^^ vc2) 63
  (((v.set a va2).set b vb2).set c vc2).set d vd2

/-- One blake2b round: G over the four columns then the four diagonals,
with message words selected by the schedule row `s`. -/
def blakeRound (m s v : List Nat) : List Nat :=
  let g := fun (v : List Nat) (i a b c d : Nat) =>
    blakeG v a b c d (m.getD (s.getD (2 * i) 0) 0) (m.getD (s.getD (2 * i + 1) 0) 0)
  g (g (g (g (g (g (g (g v 0 0 4 8 12) 1 1 5 9 13) 2 2 6 10 14) 3 3 7 11 15)
    4 0 5 10 15) 5 1 6 11 12) 6 2 7 8 13) 7 3 4 9 14

/-- The blake2b compression function F (RFC 7693 section 3.2): 12 rounds
over the work vector, offset counter `t`, final-block flag `last`. -/
def blakeCompress (h m : List Nat) (t : Nat) (last : Bool) : List Nat :=
  let v0 := h ++ blakeIV
  let v1 := v0.set 12 (v0.getD 12 0 ^^^ wrap64 t)
  let v2 := v1.set 13 (v1.getD 13 0 ^^^ (t / 2 ^ 64 % 2 ^ 64))
  let v3 := if last then v2.set 14 (v2.getD 14 0 ^^^ (2 ^ 64 - 1)) else v2
  let vf := (List.range 12).foldl
    (fun v i => blakeRound m (blakeSigma.getD (i % 10) []) v) v3
  (List.range 8).map (fun i => h.getD i 0 ^^^ vf.getD i 0 ^^^ vf.getD (i + 8) 0)

/-- Little-endian value of a byte list. -/
def wordLE (bs : List Nat) : Nat := bs.foldr (fun b acc => b + 256 * acc) 0

/-- Split a byte list into little-endian 64-bit words (a 128-byte block
yields the 16 message words). -/
def toWords (bs : List Nat) : List Nat :=
  match bs with
  | [] => []
  | b :: rest => wordLE (b :: rest.take 7) :: toWords (rest.drop 7)
termination_by bs.length
decreasing_by
  simp only [List.length_drop, List.length_cons]
  omega

/-- The blake2b block loop: every full block except the last is compressed
with the running byte counter; the last (possibly partial, zero-padded,
or the all-zero block of the empty message) is compressed with the total
byte count and the final-block flag. -/
def blakeLoop (h rest : List Nat) (compressed : Nat) : List Nat :=
  if rest.length ≤ 128 then
    blakeCompress h (toWords (rest ++ List.replicate (128 - rest.length) 0))
      (compressed + rest.length) true
  else
    blakeLoop (blakeCompress h (toWords (rest.take 128)) (compressed + 128) false)
      (rest.drop 128) (compressed + 128)
termination_by rest.length
decreasing_by
  simp only [List.length_drop]
  omega

/-- Little-endian bytes of a 64-bit word. -/
def wordBytesLE (w : Nat) : List Nat :=
  [w % 256, w / 2 ^ 8 % 256, w / 2 ^ 16 % 256, w / 2 ^ 24 % 256,
   w / 2 ^ 32 % 256, w / 2 ^ 40 % 256, w / 2 ^ 48 % 256, w / 2 ^ 56 % 256]

/-- Little-endian serialization of the state words. -/
def wordsBytes : List Nat → List Nat
  | [] => []
  | w :: ws => wordBytesLE w ++ wordsBytes ws

/-- Unkeyed blake2b of `input` with the given digest size: parameter-block
XOR into `h[0]` (`0x01010000 ^ digest_size`), block loop, and truncation
of the little-endian state to `digestSize` bytes. -/
def blake2b (input : List Nat) (digestSize : Nat) : List Nat :=
  let h0 := blakeIV.set 0 (blakeIV.getD 0 0 ^^^ 0x01010000 ^^^ digestSize)
  (wordsBytes (blakeLoop h0 input 0)).take digestSize

/-- Hexadecimal rendering of a byte list (`hexdigest()`). -/
def hexOfBytes : List Nat → List Char
  | [] => []
  | b :: rest => hexDigit (b / 16) :: hexDigit (b % 16) :: hexOfBytes rest

/-- The function `generate_cache_key(endpoint, params)`:
`json.dumps(params or \x7b\x7d, sort_keys=True)`, build
`f"\x7bendpoint\x7d?\x7bparams_str\x7d"`, and hash it with blake2b at
`digest_size=16`, rendered as a 32-character hexadecimal string. -/
def generateCacheKey (endpoint : String) (params : Option (List (String × Value))) : String :=
  let paramsStr := dumpsValue (.dict (params.getD []))
  let cacheString := endpoint ++ "?" ++ paramsStr
  String.mk (hexOfBytes (blake2b (utf8Bytes cacheString) 16))

/-! ### Retry engine (`BaseService._execute_with_retry` in `src/services/base.py`)

The wrapped `request_fn` is modelled as a map from the attempt index to the
outcome of that attempt; sleeps are recorded symbolically (which
`asyncio.sleep` call site ran, with which argument), so that no float
arithmetic needs to be modelled for `_calculate_retry_delay`. -/

/-- Which concrete `DigikalaAPIError` subclass an attempt raised.  The retry
loop only inspects `status_code`, but the class identity is preserved so
that propagation of, e.g., `NotFoundError` can be stated. -/
inductive APIErrorKind where
  | badRequest
  | unauthorized
  | forbidden
  | notFound
  | server
  | validation
  | apiStatus
  | generic
deriving DecidableEq, Repr

/-- An exception raised by one attempt of `request_fn`, one constructor per
`except` clause of `_execute_with_retry` (ordered as the clauses are):
`httpx.TimeoutException`, `httpx.ConnectError`, `RateLimitError` (carrying
its optional `retry_after`), the `(ServerError, DigikalaAPIError)` family
(carrying the subclass and its optional `status_code`), and any other
`httpx.HTTPError`. -/
inductive AttemptError where
  | httpxTimeout
  | httpxConnect
  | rateLimit (retryAfter : Option Nat)
  | api (kind : APIErrorKind) (status : Option Int)
  | httpxOther
deriving DecidableEq, Repr

/-- The error object stored into `last_exception` for an attempt error
(timeouts and connect failures are wrapped into the SDK error types;
SDK errors are stored as they are). -/
inductive RetryError where
  | timeout
  | connection
  | rateLimit (retryAfter : Option Nat)
  | api (kind : APIErrorKind) (status : Option Int)
  | http
  | exhausted
deriving DecidableEq, Repr

/-- Wrapping of a caught attempt exception (`DigikalaTimeoutError`,
`DigikalaConnectionError`, pass-through, pass-through, `DigikalaAPIError`). -/
def classifyError : AttemptError → RetryError
  | .httpxTimeout => .timeout
  | .httpxConnect => .connection
  | .rateLimit h => .rateLimit h
  | .api k st => .api k st
  | .httpxOther => .http

/-- One recorded `asyncio.sleep`: either the server-hint sleep
`asyncio.sleep(e.retry_after)` or the exponential backoff sleep
`asyncio.sleep(self._calculate_retry_delay(attempt))`. -/
inductive Sleep where
  | hint (retryAfter : Nat)
  | backoff (attempt : Nat)
deriving DecidableEq, Repr

/-- What the loop body decides after catching an attempt error: sleep and
run the next attempt, or leave the loop and raise. -/
inductive StepDecision where
  | retry (s : Sleep)
  | stop
deriving DecidableEq, Repr

/-- Python truthiness of `e.retry_after` (an `Optional[int]`): `None` and
`0` are falsy. -/
def retryAfterTruthy : Option Nat → Bool
  | none => false
  | some n => n ≠ 0

/-- Membership of an optional `status_code` in `config.retry_status_codes`
(`None in codes` is false). -/
def statusRetryable (codes : List Int) : Option Int → Bool
  | none => false
  | some s => s ∈ codes

/-- The decision taken by `_execute_with_retry` for an error caught at
`attempt`: the `RateLimitError` clause sleeps the truthy `retry_after` hint
when attempts remain; the `(ServerError, DigikalaAPIError)` clause sleeps
the backoff delay when the status code is retryable and attempts remain;
every caught error that did not `continue` falls through to the trailing
`if attempt < max_retries` block, which sleeps the backoff delay and
retries, or breaks out of the loop when no attempts remain. -/
def retryDecision (codes : List Int) (maxRetries attempt : Nat) : AttemptError → StepDecision
  | .rateLimit h =>
      if retryAfterTruthy h ∧ attempt < maxRetries then .retry (.hint (h.getD 0))
      else if attempt < maxRetries then .retry (.backoff attempt) else .stop
  | .api _ st =>
      if statusRetryable codes st ∧ attempt < maxRetries then .retry (.backoff attempt)
      else if attempt < maxRetries then .retry (.backoff attempt) else .stop
  | _ =>
      if attempt < maxRetries then .retry (.backoff attempt) else .stop

/-- Result of `_execute_with_retry`: how many attempts (`request_fn`
invocations) ran, which sleeps were performed in order, and the returned
value or raised error. -/
structure RetryResult (α : Type) where
  attempts : Nat
  sleeps : List Sleep
  outcome : Except RetryError α
deriving DecidableEq, Repr

/-- The `while attempt <= max_retries` loop.  `fuel` is the number of loop
iterations still allowed by the condition (`max_retries + 1 - attempt`);
every path that re-enters the loop body increments `attempt` and is only
taken when `attempt < max_retries` held, so the fuel never runs out before
the loop returns or breaks; the fuel-0 fallback is the post-loop
`raise last_exception / raise DigikalaAPIError("Request failed ...")`. -/
def retryGo (codes : List Int) (outcomes : Nat → Except AttemptError α) (maxRetries : Nat) :
    Nat → Nat → Option RetryError → List Sleep → RetryResult α
  | 0, attempt, lastE, sleeps => ⟨attempt, sleeps, .error (lastE.getD .exhausted)⟩
  | fuel + 1, attempt, _lastE, sleeps =>
      match outcomes attempt with
      | .ok a => ⟨attempt + 1, sleeps, .ok a⟩
      | .error e =>
          match retryDecision codes maxRetries attempt e with
          | .retry s =>
              retryGo codes outcomes maxRetries fuel (attempt + 1)
                (some (classifyError e)) (sleeps ++ [s])
          | .stop => ⟨attempt + 1, sleeps, .error (classifyError e)⟩

/-- `_execute_with_retry(request_fn, max_retries)`: run the loop from
`attempt = 0` with no recorded exception. -/
def executeWithRetry (codes : List Int) (outcomes : Nat → Except AttemptError α)
    (maxRetries : Nat) : RetryResult α :=
  retryGo codes outcomes maxRetries (maxRetries + 1) 0 none []

/-- The default `retry_status_codes` of `DigikalaConfig`. -/
def defaultRetryStatusCodes : List Int := [429, 500, 502, 503, 504]

/-! ### Circuit breaker (`DefaultCircuitBreaker` in `src/implementations.py`)

`time.time()` values are passed in explicitly; Python floats are modelled
as rationals. -/

/-- The `CircuitState` enum. -/
inductive CircuitState where
  | closed
  | open
  | halfOpen
deriving DecidableEq, Repr

/-- The constructor arguments of `DefaultCircuitBreaker`. -/
structure BreakerConfig where
  failureThreshold : Nat
  recoveryTimeout : ℚ
  successThreshold : Nat
deriving DecidableEq, Repr

/-- The mutable state of a `DefaultCircuitBreaker`. -/
structure Breaker where
  state : CircuitState
  failureCount : Nat
  successCount : Nat
  lastFailureTime : Option ℚ
deriving DecidableEq, Repr

/-- The freshly constructed breaker: CLOSED, both counters 0, no failure
recorded. -/
def initBreaker : Breaker :=
  ⟨.closed, 0, 0, none⟩

/-- The `_should_attempt_reset` check at time `now`. -/
def shouldAttemptReset (cfg : BreakerConfig) (b : Breaker) (now : ℚ) : Bool :=
  match b.lastFailureTime with
  | none => true
  | some t => now - t ≥ cfg.recoveryTimeout

/-- The `record_success` method: in HALF_OPEN count the success and close
the circuit (resetting both counters) at `success_threshold`; in CLOSED
reset the failure counter; in OPEN do nothing. -/
def recordSuccess (cfg : BreakerConfig) (b : Breaker) : Breaker :=
  match b.state with
  | .halfOpen =>
      if b.successCount + 1 ≥ cfg.successThreshold then
        { b with state := .closed, failureCount := 0, successCount := 0 }
      else
        { b with successCount := b.successCount + 1 }
  | .closed => { b with failureCount := 0 }
  | .open => b

/-- The `record_failure` method at time `now`: always record the failure
time; in HALF_OPEN reopen with the failure counter set to the threshold;
in CLOSED increment the counter and open the circuit once it reaches the
threshold; in OPEN change nothing else. -/
def recordFailure (cfg : BreakerConfig) (b : Breaker) (now : ℚ) : Breaker :=
  let b1 := { b with lastFailureTime := some now }
  match b1.state with
  | .halfOpen => { b1 with state := .open, failureCount := cfg.failureThreshold }
  | .closed =>
      if b1.failureCount + 1 ≥ cfg.failureThreshold then
        { b1 with state := .open, failureCount := b1.failureCount + 1 }
      else
        { b1 with failureCount := b1.failureCount + 1 }
  | .open => b1

/-- Success or failure of the wrapped coroutine. -/
inductive CallOutcome where
  | success
  | failure
deriving DecidableEq, Repr

/-- What `DefaultCircuitBreaker.call` did: returned the result, re-raised
the wrapped failure, or failed fast with `CircuitBreakerOpenError`
(carrying the failure count and the retry-after estimate). -/
inductive CallResult where
  | ok
  | errorPropagated
  | rejected (failureCount : Nat) (retryAfter : ℚ)
deriving DecidableEq, Repr

/-- The `call` method: under the lock, an OPEN breaker either moves to
HALF_OPEN (success counter reset) when the recovery timeout has elapsed,
or fails fast with `CircuitBreakerOpenError` without invoking the wrapped
function; then the function runs and its outcome is recorded.  `now` is
the `time.time()` observed inside the lock, `recordTime` the one observed
by `record_failure`.  The returned Bool states whether the wrapped
function was invoked. -/
def breakerCall (cfg : BreakerConfig) (b : Breaker) (now : ℚ) (outcome : CallOutcome)
    (recordTime : ℚ) : Breaker × CallResult × Bool :=
  let gate : Option Breaker :=
    if b.state = .open then
      if shouldAttemptReset cfg b now then
        some { b with state := .halfOpen, successCount := 0 }
      else none
    else some b
  match gate with
  | none =>
      (b, .rejected b.failureCount
        (max 0 (cfg.recoveryTimeout - (now - b.lastFailureTime.getD 0))), false)
  | some b2 =>
      match outcome with
      | .success => (recordSuccess cfg b2, .ok, true)
      | .failure => (recordFailure cfg b2 recordTime, .errorPropagated, true)

/-- An operation applied to a breaker: the public surface used by the
service (`call`, and the direct `record_success` / `record_failure`). -/
inductive BreakerOp where
  | opSuccess
  | opFailure (t : ℚ)
  | opCall (now : ℚ) (outcome : CallOutcome) (recordTime : ℚ)

/-- Apply one operation to the breaker state. -/
def applyOp (cfg : BreakerConfig) (b : Breaker) : BreakerOp → Breaker
  | .opSuccess => recordSuccess cfg b
  | .opFailure t => recordFailure cfg b t
  | .opCall now outcome recordTime => (breakerCall cfg b now outcome recordTime).1

/-- Run a sequence of operations from the initial state. -/
def runOps (cfg : BreakerConfig) (ops : List BreakerOp) : Breaker :=
  ops.foldl (applyOp cfg) initBreaker

/-! ### Typed response envelope (`BaseResponse` in
`src/models/common_models.py` and `APIStatusError.from_response` in
`src/exceptions.py`) -/

/-- The `error_messages` table of `APIStatusError.from_response`, with the
`f"Request failed with status \x7bstatus\x7d"` fallback. -/
def statusMessage (status : Int) : String :=
  if status = 400 then "Bad Request - Invalid parameters"
  else if status = 401 then "Unauthorized - Invalid or missing API key"
  else if status = 403 then "Forbidden - Access denied"
  else if status = 404 then "Not Found - Resource does not exist"
  else if status = 429 then "Rate Limit Exceeded"
  else if status = 500 then "Internal Server Error"
  else if status = 502 then "Bad Gateway"
  else if status = 503 then "Service Unavailable"
  else "Request failed with status " ++ toString status

/-- Why constructing a `BaseResponse` failed: the `APIStatusError` raised
by the before-validator (`from_response` message and status code), a
pydantic error from the payload model, or the missing required `status`
field. -/
inductive EnvelopeError (σ : Type) where
  | apiStatus (message : String) (statusCode : Int)
  | schema (e : σ)
  | missingStatus
deriving DecidableEq, Repr

/-- A validated `BaseResponse[DataT]`. -/
structure EnvelopeResponse (δ : Type) where
  status : Int
  data : Option δ
deriving DecidableEq, Repr

/-- Construction of a `BaseResponse` subclass from raw input values with
fields `status` and `data`.  The `model_validator(mode=before)` hook
`validate_status` runs first: a present non-200 `status` raises
`APIStatusError.from_response(status, values)` before any field
validation.  Only then does pydantic validate the fields: `status` is
required, and `data` is validated by the payload model `validateData`
(an arbitrary validator, so that independence from the payload shape can
be stated). -/
def constructEnvelope (validateData : Option Value → Except σ (Option δ))
    (status : Option Int) (data : Option Value) :
    Except (EnvelopeError σ) (EnvelopeResponse δ) :=
  match status with
  | some s =>
      if s ≠ 200 then .error (.apiStatus (statusMessage s) s)
      else
        match validateData data with
        | .ok d => .ok ⟨s, d⟩
        | .error e => .error (.schema e)
  | none => .error .missingStatus

/-! ### Request headers (`DigikalaConfig.get_headers` in `src/config.py`) -/

/-- Python truthiness of an `Optional[str]` credential: `None` and the
empty string are falsy. -/
def credTruthy : Option String → Bool
  | none => false
  | some s => !s.isEmpty

/-- The credential slice of `DigikalaConfig`. -/
structure AuthConfig where
  apiKey : Option String
  bearerToken : Option String
deriving DecidableEq, Repr

/-- `get_headers()`: always `Content-Type` and `Accept`; then
`Authorization: Bearer <token>` when `bearer_token` is truthy, otherwise
`X-API-Key: <key>` when `api_key` is truthy, otherwise no credential
header. -/
def getHeaders (c : AuthConfig) : List (String × String) :=
  let base := [("Content-Type", "application/json"), ("Accept", "application/json")]
  if credTruthy c.bearerToken then
    base ++ [("Authorization", "Bearer " ++ c.bearerToken.getD "")]
  else if credTruthy c.apiKey then
    base ++ [("X-API-Key", c.apiKey.getD "")]
  else base

/-- The number of credential headers in a header list. -/
def credHeaderCount (hs : List (String × String)) : Nat :=
  (hs.filter (fun h => h.1 = "Authorization" || h.1 = "X-API-Key")).length

/-! ## Supporting lemmas for the retry engine -/

/-- On an all-timeout outcome stream the loop runs `attempt` up to
`max_retries`, sleeping backoff delays, and finally raises the wrapped
timeout error. -/
theorem retryGo_allTimeout {α : Type} (codes : List Int) (m : Nat) :
    ∀ (fuel attempt : Nat) (lastE : Option RetryError) (sleeps : List Sleep),
      attempt + fuel = m + 1 → 1 ≤ fuel →
      (retryGo codes (fun _ => (.error .httpxTimeout : Except AttemptError α)) m
          fuel attempt lastE sleeps) =
        ⟨m + 1, sleeps ++ (List.range (m - attempt)).map (fun i => .backoff (attempt + i)),
          .error .timeout⟩ := by
  intro fuel
  induction fuel with
  | zero => omega
  | succ f ih =>
      intro attempt lastE sleeps hsum _hpos
      rw [retryGo]
      simp only [retryDecision]
      by_cases hlt : attempt < m
      · rw [if_pos hlt]
        dsimp only
        have hf : 1 ≤ f := by omega
        rw [ih (attempt + 1) (some (classifyError AttemptError.httpxTimeout))
          (sleeps ++ [Sleep.backoff attempt]) (by omega) hf]
        have hrange : m - attempt = (m - (attempt + 1)) + 1 := by omega
        rw [hrange, List.range_succ_eq_map]
        simp [List.map_map, Function.comp_def, Nat.add_assoc, Nat.add_comm 1]
      · rw [if_neg hlt]
        dsimp only
        have hm : attempt = m := by omega
        subst hm
        simp [classifyError]

/-! ## Supporting lemmas for the circuit breaker -/

/-- The invariant maintained by every breaker operation: the failure
counter stays below the threshold while CLOSED and never exceeds it. -/
def breakerInv (cfg : BreakerConfig) (b : Breaker) : Prop :=
  (b.state = .closed → b.failureCount < cfg.failureThreshold) ∧
    b.failureCount ≤ cfg.failureThreshold

theorem breakerInv_init (cfg : BreakerConfig) (h : 1 ≤ cfg.failureThreshold) :
    breakerInv cfg initBreaker := by
  constructor <;> simp [initBreaker] <;> omega

theorem breakerInv_recordSuccess (cfg : BreakerConfig) (b : Breaker)
    (hth : 1 ≤ cfg.failureThreshold) (hb : breakerInv cfg b) :
    breakerInv cfg (recordSuccess cfg b) := by
  obtain ⟨h1, h2⟩ := hb
  unfold breakerInv
  cases hs : b.state
  · refine ⟨?_, ?_⟩ <;> simp [recordSuccess, hs] <;> omega
  · refine ⟨?_, ?_⟩ <;> simp [recordSuccess, hs] <;> omega
  · refine ⟨?_, ?_⟩ <;> simp [recordSuccess, hs] <;> (try split) <;> simp <;> omega

theorem breakerInv_recordFailure (cfg : BreakerConfig) (b : Breaker) (t : ℚ)
    (hb : breakerInv cfg b) : breakerInv cfg (recordFailure cfg b t) := by
  obtain ⟨h1, h2⟩ := hb
  unfold breakerInv
  cases hs : b.state
  · have h1c := h1 hs
    refine ⟨?_, ?_⟩ <;> simp [recordFailure, hs] <;> (try split) <;> simp <;> omega
  · refine ⟨?_, ?_⟩ <;> simp [recordFailure, hs] <;> omega
  · refine ⟨?_, ?_⟩ <;> simp [recordFailure, hs] <;> omega

theorem breakerInv_applyOp (cfg : BreakerConfig) (b : Breaker) (op : BreakerOp)
    (hth : 1 ≤ cfg.failureThreshold) (hb : breakerInv cfg b) :
    breakerInv cfg (applyOp cfg b op) := by
  cases op with
  | opSuccess => exact breakerInv_recordSuccess cfg b hth hb
  | opFailure t => exact breakerInv_recordFailure cfg b t hb
  | opCall now outcome recordTime =>
      unfold applyOp breakerCall
      by_cases hopen : b.state = .open
      · by_cases hreset : shouldAttemptReset cfg b now = true
        · have hb2 : breakerInv cfg { b with state := .halfOpen, successCount := 0 } := by
            obtain ⟨h1, h2⟩ := hb
            exact ⟨by simp, h2⟩
          cases outcome with
          | success =>
              simpa [hopen, hreset] using breakerInv_recordSuccess cfg _ hth hb2
          | failure =>
              simpa [hopen, hreset] using breakerInv_recordFailure cfg _ recordTime hb2
        · simp only [Bool.not_eq_true] at hreset
          simpa [hopen, hreset] using hb
      · have hb2 : breakerInv cfg b := hb
        cases outcome with
        | success => simpa [hopen] using breakerInv_recordSuccess cfg b hth hb
        | failure => simpa [hopen] using breakerInv_recordFailure cfg b recordTime hb

theorem breakerInv_runOps (cfg : BreakerConfig) (hth : 1 ≤ cfg.failureThreshold) :
    ∀ ops : List BreakerOp, breakerInv cfg (runOps cfg ops) := by
  have main : ∀ (ops : List BreakerOp) (b : Breaker), breakerInv cfg b →
      breakerInv cfg (ops.foldl (applyOp cfg) b) := by
    intro ops
    induction ops with
    | nil => intro b hb; exact hb
    | cons op rest ih =>
        intro b hb
        exact ih (applyOp cfg b op) (breakerInv_applyOp cfg b op hth hb)
  intro ops
  exact main ops initBreaker (breakerInv_init cfg hth)

/-! ## Supporting lemmas for the request validator -/

theorem findPattern_none_of_isSome_false (s : String)
    (h : (findPattern s).isSome = false) : findPattern s = none := by
  cases hfp : findPattern s with
  | none => rfl
  | some pat => rw [hfp] at h; simp at h

mutual

theorem checkValue_ok (key path : String) (v : Value)
    (hlen : lenOkValue key v = true) (hsus : suspValue v = false) :
    checkValue key path v = .ok () := by
  cases v with
  | str s =>
      rw [lenOkValue, Bool.and_eq_true] at hlen
      obtain ⟨hkey, hrest⟩ := hlen
      simp only [decide_eq_true_eq] at hkey hrest
      rw [suspValue] at hsus
      have hnone := findPattern_none_of_isSome_false _ hsus
      simp only [checkValue]
      rw [if_neg (by omega), if_neg (by omega), hnone]
  | dict es =>
      rw [lenOkValue, Bool.and_eq_true] at hlen
      obtain ⟨hkey, hrest⟩ := hlen
      simp only [decide_eq_true_eq] at hkey
      rw [suspValue] at hsus
      simp only [checkValue]
      rw [if_neg (by omega)]
      exact checkEntries_ok es (currentPath path key) hrest hsus
  | list vs =>
      rw [lenOkValue, Bool.and_eq_true] at hlen
      obtain ⟨hkey, hrest⟩ := hlen
      simp only [decide_eq_true_eq] at hkey
      rw [suspValue] at hsus
      simp only [checkValue]
      rw [if_neg (by omega)]
      exact checkItems_ok vs 0 (currentPath path key) hrest hsus
  | num n =>
      simp only [lenOkValue, Bool.and_eq_true, decide_eq_true_eq] at hlen
      simp only [checkValue]
      rw [if_neg (by omega)]
  | bool b =>
      simp only [lenOkValue, Bool.and_eq_true, decide_eq_true_eq] at hlen
      simp only [checkValue]
      rw [if_neg (by omega)]
  | null =>
      simp only [lenOkValue, Bool.and_eq_true, decide_eq_true_eq] at hlen
      simp only [checkValue]
      rw [if_neg (by omega)]

theorem checkEntries_ok (es : List (String × Value)) (path : String)
    (hlen : lenOkEntries es = true) (hsus : suspEntries es = false) :
    checkEntries es path = .ok () := by
  match es with
  | [] => rfl
  | (k, v) :: rest =>
      rw [lenOkEntries, Bool.and_eq_true] at hlen
      rw [suspEntries, Bool.or_eq_false_iff] at hsus
      rw [checkEntries, checkValue_ok k path v hlen.1 hsus.1]
      exact checkEntries_ok rest path hlen.2 hsus.2

theorem checkItems_ok (vs : List Value) (idx : Nat) (path : String)
    (hlen : lenOkItems vs idx = true) (hsus : suspItems vs = false) :
    checkItems vs idx path = .ok () := by
  match vs with
  | [] => rfl
  | v :: rest =>
      rw [lenOkItems, Bool.and_eq_true] at hlen
      rw [suspItems, Bool.or_eq_false_iff] at hsus
      rw [checkItems, checkValue_ok (listKey idx) path v hlen.1 hsus.1]
      exact checkItems_ok rest (idx + 1) path hlen.2 hsus.2

end

mutual

theorem checkValue_susp (key path : String) (v : Value)
    (hlen : lenOkValue key v = true) (hsus : suspValue v = true) :
    ∃ p pat, checkValue key path v = .error (.suspicious p pat) := by
  cases v with
  | str s =>
      rw [lenOkValue, Bool.and_eq_true] at hlen
      obtain ⟨hkey, hrest⟩ := hlen
      simp only [decide_eq_true_eq] at hkey hrest
      rw [suspValue, Option.isSome_iff_exists] at hsus
      obtain ⟨pat, hpat⟩ := hsus
      refine ⟨currentPath path key, pat, ?_⟩
      simp only [checkValue]
      rw [if_neg (by omega), if_neg (by omega), hpat]
  | dict es =>
      rw [lenOkValue, Bool.and_eq_true] at hlen
      obtain ⟨hkey, hrest⟩ := hlen
      simp only [decide_eq_true_eq] at hkey
      rw [suspValue] at hsus
      obtain ⟨p, pat, h⟩ := checkEntries_susp es (currentPath path key) hrest hsus
      refine ⟨p, pat, ?_⟩
      simp only [checkValue]
      rw [if_neg (by omega)]
      exact h
  | list vs =>
      rw [lenOkValue, Bool.and_eq_true] at hlen
      obtain ⟨hkey, hrest⟩ := hlen
      simp only [decide_eq_true_eq] at hkey
      rw [suspValue] at hsus
      obtain ⟨p, pat, h⟩ := checkItems_susp vs 0 (currentPath path key) hrest hsus
      refine ⟨p, pat, ?_⟩
      simp only [checkValue]
      rw [if_neg (by omega)]
      exact h
  | num n => exact absurd hsus (by simp only [suspValue]; simp)
  | bool b => exact absurd hsus (by simp only [suspValue]; simp)
  | null => exact absurd hsus (by simp only [suspValue]; simp)

theorem checkEntries_susp (es : List (String × Value)) (path : String)
    (hlen : lenOkEntries es = true) (hsus : suspEntries es = true) :
    ∃ p pat, checkEntries es path = .error (.suspicious p pat) := by
  match es with
  | [] => rw [suspEntries] at hsus; exact absurd hsus (by simp)
  | (k, v) :: rest =>
      rw [lenOkEntries, Bool.and_eq_true] at hlen
      rw [suspEntries, Bool.or_eq_true_iff] at hsus
      by_cases hv : suspValue v = true
      · obtain ⟨p, pat, h⟩ := checkValue_susp k path v hlen.1 hv
        exact ⟨p, pat, by rw [checkEntries, h]; rfl⟩
      · rw [Bool.not_eq_true] at hv
        have hrest : suspEntries rest = true := by
          rcases hsus with h | h
          · rw [hv] at h; exact absurd h (by simp)
          · exact h
        obtain ⟨p, pat, h⟩ := checkEntries_susp rest path hlen.2 hrest
        refine ⟨p, pat, ?_⟩
        rw [checkEntries, checkValue_ok k path v hlen.1 hv]
        exact h

theorem checkItems_susp (vs : List Value) (idx : Nat) (path : String)
    (hlen : lenOkItems vs idx = true) (hsus : suspItems vs = true) :
    ∃ p pat, checkItems vs idx path = .error (.suspicious p pat) := by
  match vs with
  | [] => rw [suspItems] at hsus; exact absurd hsus (by simp)
  | v :: rest =>
      rw [lenOkItems, Bool.and_eq_true] at hlen
      rw [suspItems, Bool.or_eq_true_iff] at hsus
      by_cases hv : suspValue v = true
      · obtain ⟨p, pat, h⟩ := checkValue_susp (listKey idx) path v hlen.1 hv
        exact ⟨p, pat, by rw [checkItems, h]; rfl⟩
      · rw [Bool.not_eq_true] at hv
        have hrest : suspItems rest = true := by
          rcases hsus with h | h
          · rw [hv] at h; exact absurd h (by simp)
          · exact h
        obtain ⟨p, pat, h⟩ := checkItems_susp rest (idx + 1) path hlen.2 hrest
        refine ⟨p, pat, ?_⟩
        rw [checkItems, checkValue_ok (listKey idx) path v hlen.1 hv]
        exact h

end

mutual

theorem checkValue_long (key path : String) (v : Value)
    (hlen : lenOkValue key v = false) :
    ∃ e, checkValue key path v = .error e := by
  by_cases hkey : key.length ≤ MAX_PARAM_KEY_LENGTH
  · cases v with
    | str s =>
        rw [lenOkValue, Bool.and_eq_false_iff] at hlen
        have hrest : s.length > MAX_PARAM_VALUE_LENGTH := by
          rcases hlen with h | h
          · simp only [decide_eq_false_iff_not] at h; omega
          · simp only [decide_eq_false_iff_not] at h; omega
        refine ⟨.valueTooLong (currentPath path key), ?_⟩
        simp only [checkValue]
        rw [if_neg (by omega), if_pos (by omega)]
    | dict es =>
        rw [lenOkValue, Bool.and_eq_false_iff] at hlen
        have hrest : lenOkEntries es = false := by
          rcases hlen with h | h
          · simp only [decide_eq_false_iff_not] at h; omega
          · exact h
        obtain ⟨e, h⟩ := checkEntries_long es (currentPath path key) hrest
        refine ⟨e, ?_⟩
        simp only [checkValue]
        rw [if_neg (by omega)]
        exact h
    | list vs =>
        rw [lenOkValue, Bool.and_eq_false_iff] at hlen
        have hrest : lenOkItems vs 0 = false := by
          rcases hlen with h | h
          · simp only [decide_eq_false_iff_not] at h; omega
          · exact h
        obtain ⟨e, h⟩ := checkItems_long vs 0 (currentPath path key) hrest
        refine ⟨e, ?_⟩
        simp only [checkValue]
        rw [if_neg (by omega)]
        exact h
    | num n =>
        simp only [lenOkValue, Bool.and_eq_false_iff, Bool.and_eq_false_eq_eq_false_or_eq_false,
          decide_eq_false_iff_not] at hlen
        rcases hlen with h | h
        · omega
        · exact absurd h (by simp)
    | bool b =>
        simp only [lenOkValue, Bool.and_eq_false_iff, Bool.and_eq_false_eq_eq_false_or_eq_false,
          decide_eq_false_iff_not] at hlen
        rcases hlen with h | h
        · omega
        · exact absurd h (by simp)
    | null =>
        simp only [lenOkValue, Bool.and_eq_false_iff, Bool.and_eq_false_eq_eq_false_or_eq_false,
          decide_eq_false_iff_not] at hlen
        rcases hlen with h | h
        · omega
        · exact absurd h (by simp)
  · refine ⟨.keyTooLong key, ?_⟩
    cases v <;> (simp only [checkValue]; rw [if_pos (by omega)])

theorem checkEntries_long (es : List (String × Value)) (path : String)
    (hlen : lenOkEntries es = false) :
    ∃ e, checkEntries es path = .error e := by
  match es with
  | [] => rw [lenOkEntries] at hlen; exact absurd hlen (by simp)
  | (k, v) :: rest =>
      rw [lenOkEntries, Bool.and_eq_false_iff] at hlen
      by_cases hv : lenOkValue k v = false
      · obtain ⟨e, h⟩ := checkValue_long k path v hv
        exact ⟨e, by rw [checkEntries, h]; rfl⟩
      · rw [Bool.not_eq_false] at hv
        have hrest : lenOkEntries rest = false := by
          rcases hlen with h | h
          · rw [hv] at h; exact absurd h (by simp)
          · exact h
        cases hhead : checkValue k path v with
        | error e => exact ⟨e, by rw [checkEntries, hhead]; rfl⟩
        | ok u =>
            obtain ⟨e, h⟩ := checkEntries_long rest path hrest
            refine ⟨e, ?_⟩
            rw [checkEntries, hhead]
            exact h

theorem checkItems_long (vs : List Value) (idx : Nat) (path : String)
    (hlen : lenOkItems vs idx = false) :
    ∃ e, checkItems vs idx path = .error e := by
  match vs with
  | [] => rw [lenOkItems] at hlen; exact absurd hlen (by simp)
  | v :: rest =>
      rw [lenOkItems, Bool.and_eq_false_iff] at hlen
      by_cases hv : lenOkValue (listKey idx) v = false
      · obtain ⟨e, h⟩ := checkValue_long (listKey idx) path v hv
        exact ⟨e, by rw [checkItems, h]; rfl⟩
      · rw [Bool.not_eq_false] at hv
        have hrest : lenOkItems rest (idx + 1) = false := by
          rcases hlen with h | h
          · rw [hv] at h; exact absurd h (by simp)
          · exact h
        cases hhead : checkValue (listKey idx) path v with
        | error e => exact ⟨e, by rw [checkItems, hhead]; rfl⟩
        | ok u =>
            obtain ⟨e, h⟩ := checkItems_long rest (idx + 1) path hrest
            refine ⟨e, ?_⟩
            rw [checkItems, hhead]
            exact h

end

mutual

theorem checkValue_long_lenErr (key path : String) (v : Value)
    (hlen : lenOkValue key v = false) (hsus : suspValue v = false) :
    ∃ e, checkValue key path v = .error e ∧ e.isLengthError = true := by
  by_cases hkey : key.length ≤ MAX_PARAM_KEY_LENGTH
  · cases v with
    | str s =>
        rw [lenOkValue, Bool.and_eq_false_iff] at hlen
        have hrest : s.length > MAX_PARAM_VALUE_LENGTH := by
          rcases hlen with h | h
          · simp only [decide_eq_false_iff_not] at h; omega
          · simp only [decide_eq_false_iff_not] at h; omega
        refine ⟨.valueTooLong (currentPath path key), ?_, rfl⟩
        simp only [checkValue]
        rw [if_neg (by omega), if_pos (by omega)]
    | dict es =>
        rw [lenOkValue, Bool.and_eq_false_iff] at hlen
        rw [suspValue] at hsus
        have hrest : lenOkEntries es = false := by
          rcases hlen with h | h
          · simp only [decide_eq_false_iff_not] at h; omega
          · exact h
        obtain ⟨e, h, hle⟩ := checkEntries_long_lenErr es (currentPath path key) hrest hsus
        refine ⟨e, ?_, hle⟩
        simp only [checkValue]
        rw [if_neg (by omega)]
        exact h
    | list vs =>
        rw [lenOkValue, Bool.and_eq_false_iff] at hlen
        rw [suspValue] at hsus
        have hrest : lenOkItems vs 0 = false := by
          rcases hlen with h | h
          · simp only [decide_eq_false_iff_not] at h; omega
          · exact h
        obtain ⟨e, h, hle⟩ := checkItems_long_lenErr vs 0 (currentPath path key) hrest hsus
        refine ⟨e, ?_, hle⟩
        simp only [checkValue]
        rw [if_neg (by omega)]
        exact h
    | num n =>
        simp only [lenOkValue, Bool.and_eq_false_iff, Bool.and_eq_false_eq_eq_false_or_eq_false,
          decide_eq_false_iff_not] at hlen
        rcases hlen with h | h
        · omega
        · exact absurd h (by simp)
    | bool b =>
        simp only [lenOkValue, Bool.and_eq_false_iff, Bool.and_eq_false_eq_eq_false_or_eq_false,
          decide_eq_false_iff_not] at hlen
        rcases hlen with h | h
        · omega
        · exact absurd h (by simp)
    | null =>
        simp only [lenOkValue, Bool.and_eq_false_iff, Bool.and_eq_false_eq_eq_false_or_eq_false,
          decide_eq_false_iff_not] at hlen
        rcases hlen with h | h
        · omega
        · exact absurd h (by simp)
  · refine ⟨.keyTooLong key, ?_, rfl⟩
    cases v <;> (simp only [checkValue]; rw [if_pos (by omega)])

theorem checkEntries_long_lenErr (es : List (String × Value)) (path : String)
    (hlen : lenOkEntries es = false) (hsus : suspEntries es = false) :
    ∃ e, checkEntries es path = .error e ∧ e.isLengthError = true := by
  match es with
  | [] => rw [lenOkEntries] at hlen; exact absurd hlen (by simp)
  | (k, v) :: rest =>
      rw [lenOkEntries, Bool.and_eq_false_iff] at hlen
      rw [suspEntries, Bool.or_eq_false_iff] at hsus
      by_cases hv : lenOkValue k v = false
      · obtain ⟨e, h, hle⟩ := checkValue_long_lenErr k path v hv hsus.1
        exact ⟨e, by rw [checkEntries, h]; rfl, hle⟩
      · rw [Bool.not_eq_false] at hv
        have hrest : lenOkEntries rest = false := by
          rcases hlen with h | h
          · rw [hv] at h; exact absurd h (by simp)
          · exact h
        obtain ⟨e, h, hle⟩ := checkEntries_long_lenErr rest path hrest hsus.2
        refine ⟨e, ?_, hle⟩
        rw [checkEntries, checkValue_ok k path v hv hsus.1]
        exact h

theorem checkItems_long_lenErr (vs : List Value) (idx : Nat) (path : String)
    (hlen : lenOkItems vs idx = false) (hsus : suspItems vs = false) :
    ∃ e, checkItems vs idx path = .error e ∧ e.isLengthError = true := by
  match vs with
  | [] => rw [lenOkItems] at hlen; exact absurd hlen (by simp)
  | v :: rest =>
      rw [lenOkItems, Bool.and_eq_false_iff] at hlen
      rw [suspItems, Bool.or_eq_false_iff] at hsus
      by_cases hv : lenOkValue (listKey idx) v = false
      · obtain ⟨e, h, hle⟩ := checkValue_long_lenErr (listKey idx) path v hv hsus.1
        exact ⟨e, by rw [checkItems, h]; rfl, hle⟩
      · rw [Bool.not_eq_false] at hv
        have hrest : lenOkItems rest (idx + 1) = false := by
          rcases hlen with h | h
          · rw [hv] at h; exact absurd h (by simp)
          · exact h
        obtain ⟨e, h, hle⟩ := checkItems_long_lenErr rest (idx + 1) path hrest hsus.2
        refine ⟨e, ?_, hle⟩
        rw [checkItems, checkValue_ok (listKey idx) path v hv hsus.1]
        exact h

end

/-- A suspicious pattern never occurs in a replicated character different
from every character of the pattern. -/
theorem listContains_replicate_false (pat : List Char) (c a : Char)
    (ha : a ∈ pat) (hne : a ≠ c) :
    ∀ n, listContains pat (List.replicate n c) = false := by
  intro n
  induction n with
  | zero =>
      rw [List.replicate_zero, listContains]
      cases pat with
      | nil => exact absurd ha (by simp)
      | cons p ps => rfl
  | succ k ih =>
      rw [List.replicate_succ, listContains, ih, Bool.or_false]
      rw [Bool.eq_false_iff]
      intro hp
      have hsub := (List.isPrefixOf_iff_prefix.mp hp).subset ha
      rcases List.mem_cons.mp hsub with h | h
      · exact hne h
      · exact hne (List.eq_of_mem_replicate h)

/-- Lowercasing leaves a replicated lowercase letter unchanged. -/
theorem lowerAscii_mk_replicate_x (n : Nat) :
    lowerAscii (String.mk (List.replicate n 'x')) = String.mk (List.replicate n 'x') := by
  show String.mk ((List.replicate n 'x').map lowerChar) = _
  rw [List.map_replicate]
  have : lowerChar 'x' = 'x' := by decide
  rw [this]

/-- No suspicious pattern occurs in a replicated 'x' string. -/
theorem findPattern_replicate_x (n : Nat) :
    findPattern (String.mk (List.replicate n 'x')) = none := by
  have h1 := listContains_replicate_false ['.', '.', '/'] 'x' '.' (by decide) (by decide) n
  have h2 := listContains_replicate_false [':', '/', '/'] 'x' ':' (by decide) (by decide) n
  have h3 := listContains_replicate_false ['<', 's', 'c', 'r', 'i', 'p', 't'] 'x' '<'
    (by decide) (by decide) n
  have h4 := listContains_replicate_false ['j', 'a', 'v', 'a', 's', 'c', 'r', 'i', 'p', 't', ':']
    'x' 'j' (by decide) (by decide) n
  have h5 := listContains_replicate_false ['\x00'] 'x' '\x00' (by decide) (by decide) n
  have htl : (String.mk (List.replicate n 'x')).toList = List.replicate n 'x' := rfl
  simp [findPattern, suspiciousPatterns, strContains, List.find?, htl, h1, h2, h3, h4, h5]

/-! ## Claim theorems -/


/-! ## Supporting lemmas for cache-key generation -/

theorem charListLe_cons_iff (a b : Char) (as bs : List Char) :
    charListLe (a :: as) (b :: bs) = true ↔
      a.toNat < b.toNat ∨ (a.toNat = b.toNat ∧ charListLe as bs = true) := by
  rw [charListLe]
  by_cases h1 : a.toNat < b.toNat
  · rw [if_pos h1]
    simp [h1]
  · rw [if_neg h1]
    by_cases h2 : b.toNat < a.toNat
    · rw [if_pos h2]
      constructor
      · intro h; exact absurd h (by simp)
      · intro h; omega
    · rw [if_neg h2]
      have heq : a.toNat = b.toNat := by omega
      simp [heq, h1]

theorem charListLe_total : ∀ as bs : List Char,
    charListLe as bs = true ∨ charListLe bs as = true := by
  intro as
  induction as with
  | nil => intro bs; left; rfl
  | cons a as ih =>
      intro bs
      cases bs with
      | nil => right; rfl
      | cons b bs =>
          rcases ih bs with h | h
          · by_cases h1 : a.toNat < b.toNat
            · left; rw [charListLe_cons_iff]; omega
            · by_cases h2 : b.toNat < a.toNat
              · right; rw [charListLe_cons_iff]; omega
              · left; rw [charListLe_cons_iff]; right; exact ⟨by omega, h⟩
          · by_cases h2 : b.toNat < a.toNat
            · right; rw [charListLe_cons_iff]; omega
            · by_cases h1 : a.toNat < b.toNat
              · left; rw [charListLe_cons_iff]; omega
              · right; rw [charListLe_cons_iff]; right; exact ⟨by omega, h⟩

theorem charListLe_trans : ∀ as bs cs : List Char,
    charListLe as bs = true → charListLe bs cs = true → charListLe as cs = true := by
  intro as
  induction as with
  | nil => intro bs cs _ _; rfl
  | cons a as ih =>
      intro bs cs hab hbc
      cases bs with
      | nil => rw [charListLe] at hab; exact absurd hab (by simp)
      | cons b bs =>
          cases cs with
          | nil => rw [charListLe] at hbc; exact absurd hbc (by simp)
          | cons c cs =>
              rw [charListLe_cons_iff] at hab hbc ⊢
              rcases hab with h1 | ⟨h1, h1r⟩
              · rcases hbc with h2 | ⟨h2, _⟩
                · left; omega
                · left; omega
              · rcases hbc with h2 | ⟨h2, h2r⟩
                · left; omega
                · right; exact ⟨by omega, ih bs cs h1r h2r⟩

theorem charListLe_antisymm : ∀ as bs : List Char,
    charListLe as bs = true → charListLe bs as = true → as = bs := by
  intro as
  induction as with
  | nil =>
      intro bs h1 h2
      cases bs with
      | nil => rfl
      | cons b bs => rw [charListLe] at h2; exact absurd h2 (by simp)
  | cons a as ih =>
      intro bs h1 h2
      cases bs with
      | nil => rw [charListLe] at h1; exact absurd h1 (by simp)
      | cons b bs =>
          rw [charListLe_cons_iff] at h1 h2
          have heq : a.toNat = b.toNat := by omega
          have hrest : as = bs := by
            rcases h1 with h | ⟨_, h1r⟩
            · omega
            · rcases h2 with h | ⟨_, h2r⟩
              · omega
              · exact ih bs h1r h2r
          have hab : a = b := Char.ext (UInt32.ext heq)
          rw [hab, hrest]

/-- Strict key ordering on dict entries. -/
def entryLt (a b : String × Value) : Prop := entryLe a b ∧ a.1 ≠ b.1

instance : IsTotal (String × Value) entryLe :=
  ⟨fun a b => charListLe_total a.1.toList b.1.toList⟩

instance : IsTrans (String × Value) entryLe :=
  ⟨fun _ _ _ hab hbc => charListLe_trans _ _ _ hab hbc⟩

instance : IsAntisymm (String × Value) entryLt :=
  ⟨fun a b h1 h2 => by
    have hk : a.1 = b.1 :=
      String.ext (charListLe_antisymm a.1.toList b.1.toList h1.1 h2.1)
    exact absurd hk h1.2⟩

theorem sortEntries_eq_of_perm (l₁ l₂ : List (String × Value)) (hperm : l₁.Perm l₂)
    (hnd : (l₁.map Prod.fst).Nodup) : sortEntries l₁ = sortEntries l₂ := by
  have hp : (sortEntries l₁).Perm (sortEntries l₂) :=
    (List.perm_insertionSort entryLe l₁).trans
      (hperm.trans (List.perm_insertionSort entryLe l₂).symm)
  have hpairLt : ∀ l : List (String × Value), (l.map Prod.fst).Nodup →
      List.Sorted entryLe (List.insertionSort entryLe l) →
      List.Pairwise entryLt (List.insertionSort entryLe l) := by
    intro l hl hs
    have hnds : ((List.insertionSort entryLe l).map Prod.fst).Nodup :=
      (((List.perm_insertionSort entryLe l).map Prod.fst).symm).nodup hl
    have hne : List.Pairwise (fun a b : String × Value => a.1 ≠ b.1)
        (List.insertionSort entryLe l) := List.pairwise_map.mp hnds
    exact (hs.and hne).imp (fun h => ⟨h.1, h.2⟩)
  have hnd₂ : (l₂.map Prod.fst).Nodup := ((hperm.map Prod.fst)).nodup hnd
  exact List.eq_of_perm_of_sorted (r := entryLt) hp
    (hpairLt l₁ hnd (List.sorted_insertionSort entryLe l₁))
    (hpairLt l₂ hnd₂ (List.sorted_insertionSort entryLe l₂))

theorem dumpsValue_dict (es : List (String × Value)) :
    dumpsValue (.dict es) =
      "\x7b" ++
        joinComma ((sortEntries es).map (fun e => quoteJson e.1 ++ ": " ++ dumpsValue e.2)) ++
        "\x7d" := by
  rw [dumpsValue]
  rw [List.attach_map_coe (sortEntries es) (fun e => quoteJson e.1 ++ ": " ++ dumpsValue e.2)]

theorem blakeCompress_length (h m : List Nat) (t : Nat) (last : Bool) :
    (blakeCompress h m t last).length = 8 := by
  simp [blakeCompress]

theorem blakeLoop_length : ∀ (n : Nat) (rest h : List Nat) (c : Nat), rest.length ≤ n →
    (blakeLoop h rest c).length = 8 := by
  intro n
  induction n with
  | zero =>
      intro rest h c hle
      rw [blakeLoop, if_pos (by omega)]
      exact blakeCompress_length _ _ _ _
  | succ k ih =>
      intro rest h c hle
      rw [blakeLoop]
      by_cases hc : rest.length ≤ 128
      · rw [if_pos hc]
        exact blakeCompress_length _ _ _ _
      · rw [if_neg hc]
        exact ih _ _ _ (by rw [List.length_drop]; omega)

theorem wordsBytes_length (ws : List Nat) : (wordsBytes ws).length = 8 * ws.length := by
  induction ws with
  | nil => rfl
  | cons w ws ih =>
      rw [wordsBytes, List.length_append, ih]
      simp [wordBytesLE]
      omega

theorem blake2b_length_16 (input : List Nat) : (blake2b input 16).length = 16 := by
  unfold blake2b
  rw [List.length_take, wordsBytes_length,
    blakeLoop_length input.length input _ 0 le_rfl]
  decide

theorem hexOfBytes_length (bs : List Nat) : (hexOfBytes bs).length = 2 * bs.length := by
  induction bs with
  | nil => rfl
  | cons b bs ih =>
      rw [hexOfBytes, List.length_cons, List.length_cons, ih, List.length_cons]
      omega

theorem hexDigit_mem (n : Nat) : hexDigit n ∈ hexDigits := by
  have hlen : hexDigits.length = 16 := by decide
  have hlt : n % 16 < hexDigits.length := by
    have : n % 16 < 16 := Nat.mod_lt n (by omega)
    omega
  rw [hexDigit, List.getD_eq_getElem hexDigits '0' hlt]
  exact List.getElem_mem hlt

theorem hexOfBytes_mem (bs : List Nat) : ∀ c ∈ hexOfBytes bs, c ∈ hexDigits := by
  induction bs with
  | nil => intro c hc; exact absurd hc (by simp [hexOfBytes])
  | cons b bs ih =>
      intro c hc
      rw [hexOfBytes] at hc
      rcases List.mem_cons.mp hc with h | hc2
      · rw [h]; exact hexDigit_mem _
      · rcases List.mem_cons.mp hc2 with h | h
        · rw [h]; exact hexDigit_mem _
        · exact ih c h


/-- C4 (counterexample): `DefaultValidator.validate_params` does not
pattern-check parameter keys: the key "a://b" contains the suspicious
pattern "://", yet a tree with that key (and a non-string value) passes
validation — only string values are searched for suspicious patterns. -/
theorem validate_params_key_pattern_cex :
    strContains (lowerAscii "a://b") "://" = true
  ∧ validateParams [("a://b", .num 1)] = .ok () := by
  constructor
  · decide
  · exact checkEntries_ok _ ""
      (by simp only [lenOkEntries, lenOkValue]; decide)
      (by simp only [suspEntries, suspValue]; decide)

/-- C4 (amended): over parameter trees within the length limits, if some
string value (at any nesting depth, compared after lowercasing) contains
one of the suspicious patterns then `validate_params` fails with a
suspicious-pattern error, and if no string value contains one then it
succeeds (keys are checked only for length, never for patterns). -/
theorem validate_params_suspicious_values (params : List (String × Value))
    (hlen : lenOkEntries params = true) :
    (suspEntries params = true →
      ∃ p pat, validateParams params = .error (.suspicious p pat))
  ∧ (suspEntries params = false → validateParams params = .ok ()) :=
  ⟨fun hs => checkEntries_susp params "" hlen hs,
   fun hs => checkEntries_ok params "" hlen hs⟩

/-- Witness for the amended C4 theorem: a nested tree with a
path-traversal marker in a string value is rejected with the
suspicious-pattern error, and a clean tree passes. -/
theorem validate_params_suspicious_values_witness :
    lenOkEntries [("q", Value.dict [("inner", Value.str "x../y")])] = true
  ∧ (∃ p pat, validateParams [("q", Value.dict [("inner", Value.str "x../y")])] =
      .error (.suspicious p pat))
  ∧ validateParams [("q", Value.str "a plain value")] = .ok () :=
  ⟨by simp only [lenOkEntries, lenOkValue]; decide,
   (validate_params_suspicious_values _
      (by simp only [lenOkEntries, lenOkValue]; decide)).1
     (by simp only [suspEntries, suspValue]; decide),
   (validate_params_suspicious_values _
      (by simp only [lenOkEntries, lenOkValue]; decide)).2
     (by simp only [suspEntries, suspValue]; decide)⟩

/-- C5: `validate_params` fails whenever some parameter key is longer than
512 characters or some string value (at any nesting depth) is longer than
200000 characters; when the only violations are length violations (no
suspicious pattern present) the reported error is one of the two
exceeds-maximum-length errors; and a tree within the limits with no
suspicious values validates successfully — in particular at exactly the
boundary lengths 512 and 200000. -/
theorem validate_params_length_limits (params : List (String × Value)) :
    (lenOkEntries params = false → ∃ e, validateParams params = .error e)
  ∧ (suspEntries params = false → lenOkEntries params = false →
      ∃ e, validateParams params = .error e ∧ e.isLengthError = true)
  ∧ (lenOkEntries params = true → suspEntries params = false →
      validateParams params = .ok ()) :=
  ⟨fun h => checkEntries_long params "" h,
   fun hs h => checkEntries_long_lenErr params "" h hs,
   fun hl hs => checkEntries_ok params "" hl hs⟩

/-- Witness for the C5 theorem: a 513-character key fails, a
200001-character string value fails with a length error, and the
boundary tree with a 512-character key and a 200000-character value
passes. -/
theorem validate_params_length_limits_witness :
    (∃ e, validateParams [(String.mk (List.replicate 513 'a'), Value.null)] = .error e)
  ∧ (∃ e, validateParams [("k", Value.str (String.mk (List.replicate 200001 'x')))] =
        .error e ∧ e.isLengthError = true)
  ∧ validateParams
      [(String.mk (List.replicate 512 'a'),
        Value.str (String.mk (List.replicate 200000 'x')))] = .ok () := by
  have hk513 : (String.mk (List.replicate 513 'a')).length = 513 := by
    rw [String.length_mk, List.length_replicate]
  have hk512 : (String.mk (List.replicate 512 'a')).length = 512 := by
    rw [String.length_mk, List.length_replicate]
  have hv2M1 : (String.mk (List.replicate 200001 'x')).length = 200001 := by
    rw [String.length_mk, List.length_replicate]
  have hv2M : (String.mk (List.replicate 200000 'x')).length = 200000 := by
    rw [String.length_mk, List.length_replicate]
  refine ⟨?_, ?_, ?_⟩
  · exact (validate_params_length_limits _).1
      (by simp only [lenOkEntries, lenOkValue]; rw [hk513]; decide)
  · exact (validate_params_length_limits _).2.1
      (by
        simp only [suspEntries, suspValue]
        rw [lowerAscii_mk_replicate_x, findPattern_replicate_x]
        decide)
      (by simp only [lenOkEntries, lenOkValue]; rw [hv2M1]; decide)
  · exact (validate_params_length_limits _).2.2
      (by simp only [lenOkEntries, lenOkValue]; rw [hk512, hv2M]; decide)
      (by
        simp only [suspEntries, suspValue]
        rw [lowerAscii_mk_replicate_x, findPattern_replicate_x]
        decide)

/-- C1 (code bug witness): with the default configuration
(`max_retries = 3`, `retry_status_codes = (429, 500, 502, 503, 504)`), a
request that raises `NotFoundError` (status 404) on every attempt is
nevertheless executed 4 times, with three exponential backoff sleeps in
between, before the `NotFoundError` propagates: every caught
`DigikalaAPIError` that does not match the retry conditions still falls
through to the trailing `if attempt < max_retries` retry block of
`_execute_with_retry`, so non-retryable 4xx errors are retried, contrary
to the specification and to the comment that marks that block as retry
logic for network errors. -/
theorem retry_notFound_is_retried :
    executeWithRetry (α := Unit) defaultRetryStatusCodes
        (fun _ => .error (.api .notFound (some 404))) 3 =
      ⟨4, [.backoff 0, .backoff 1, .backoff 2], .error (.api .notFound (some 404))⟩ := by
  decide

/-- C6: when every attempt raises a transport timeout, the retry engine
executes exactly `max_retries + 1` attempts in total and then propagates
the wrapped Timeout error. -/
theorem retry_timeout_exhaustion {α : Type} (codes : List Int) (m : Nat) :
    (executeWithRetry codes (fun _ => (.error .httpxTimeout : Except AttemptError α)) m).attempts
        = m + 1 ∧
      (executeWithRetry codes
          (fun _ => (.error .httpxTimeout : Except AttemptError α)) m).outcome
        = .error .timeout := by
  rw [executeWithRetry, retryGo_allTimeout codes m (m + 1) 0 none [] (by omega) (by omega)]
  exact ⟨rfl, rfl⟩

/-- C7 (amended): a rate-limit error carrying a non-zero (truthy)
retry-after hint, caught while attempts remain, makes the engine sleep
exactly the hinted duration before the next attempt, bypassing the
exponential backoff; a hint that is absent (or zero, which is falsy in
Python) or exhausted attempts never take the hint-sleep path. -/
theorem retry_rate_limit_hint (codes : List Int) (m a n : Nat) :
    (a < m → n ≠ 0 →
      retryDecision codes m a (.rateLimit (some n)) = .retry (.hint n))
  ∧ (∀ h : Option Nat, retryAfterTruthy h = false ∨ ¬ a < m →
      ∀ k, retryDecision codes m a (.rateLimit h) ≠ .retry (.hint k))
  ∧ (∀ {α : Type} (outcomes : Nat → Except AttemptError α) (fuel : Nat)
      (lastE : Option RetryError) (sleeps : List Sleep),
      outcomes a = .error (.rateLimit (some n)) → a < m → n ≠ 0 →
      retryGo codes outcomes m (fuel + 1) a lastE sleeps =
        retryGo codes outcomes m fuel (a + 1) (some (.rateLimit (some n)))
          (sleeps ++ [.hint n])) := by
  refine ⟨?_, ?_, ?_⟩
  · intro ha hn
    simp [retryDecision, retryAfterTruthy, ha, hn]
  · intro h hor k
    simp only [retryDecision]
    have hcond : ¬ (retryAfterTruthy h = true ∧ a < m) := by
      rintro ⟨htr, hlt⟩
      rcases hor with h1 | h1
      · rw [h1] at htr; exact Bool.false_ne_true htr
      · exact h1 hlt
    rw [if_neg hcond]
    split <;> simp
  · intro α outcomes fuel lastE sleeps houtcome ha hn
    rw [retryGo, houtcome]
    simp [retryDecision, retryAfterTruthy, classifyError, ha, hn]

/-- C7 (counterexample): a rate-limit error that carries the
server-provided hint `retry_after = 0` (header `Retry-After: 0`) with
attempts remaining does not take the hint-sleep path: `0` is falsy in
`if e.retry_after and attempt < max_retries`, so the engine sleeps the
backoff delay instead of the hinted duration. -/
theorem retry_rate_limit_zero_hint_cex :
    retryDecision defaultRetryStatusCodes 3 0 (.rateLimit (some 0)) = .retry (.backoff 0) ∧
      retryDecision defaultRetryStatusCodes 3 0 (.rateLimit (some 0)) ≠ .retry (.hint 0) := by
  decide

/-- Witness for the amended C7 theorem at a concrete configuration. -/
theorem retry_rate_limit_hint_witness :
    retryDecision defaultRetryStatusCodes 3 0 (.rateLimit (some 7)) = .retry (.hint 7)
  ∧ retryDecision defaultRetryStatusCodes 3 0 (.rateLimit none) ≠ .retry (.hint 0)
  ∧ retryGo defaultRetryStatusCodes
      (fun _ => (.error (.rateLimit (some 7)) : Except AttemptError Unit)) 3 1 0 none [] =
      retryGo defaultRetryStatusCodes (fun _ => .error (.rateLimit (some 7))) 3 0 1
        (some (.rateLimit (some 7))) [.hint 7] :=
  ⟨(retry_rate_limit_hint defaultRetryStatusCodes 3 0 7).1 (by decide) (by decide),
   (retry_rate_limit_hint defaultRetryStatusCodes 3 0 7).2.1 none (Or.inl (by decide)) 0,
   by
     have h := (retry_rate_limit_hint defaultRetryStatusCodes 3 0 7).2.2
       (fun _ => (.error (.rateLimit (some 7)) : Except AttemptError Unit)) 0 none []
       rfl (by decide) (by decide)
     simpa using h⟩

/-- C2: the circuit breaker follows the specified state-transition
relation: the counter behaviour of failures and successes in CLOSED,
fail-fast in OPEN before the recovery timeout (without invoking the
wrapped action, with `CircuitBreakerOpenError` carrying the failure count
and retry-after estimate), the OPEN to HALF_OPEN probation transition
after the timeout (success counter reset, action invoked), the
HALF_OPEN success counting up to `success_threshold` (then CLOSED with
both counters reset), and the HALF_OPEN failure reopening with the
failure counter set to the threshold. -/
theorem circuit_breaker_transitions (cfg : BreakerConfig) (b : Breaker) (now rt : ℚ) :
    (initBreaker.state = .closed ∧ initBreaker.failureCount = 0 ∧
      initBreaker.successCount = 0)
  ∧ (b.state = .closed → b.failureCount + 1 < cfg.failureThreshold →
      recordFailure cfg b now =
        { b with failureCount := b.failureCount + 1, lastFailureTime := some now })
  ∧ (b.state = .closed → b.failureCount + 1 ≥ cfg.failureThreshold →
      recordFailure cfg b now =
        { b with
            state := .open,
            failureCount := b.failureCount + 1,
            lastFailureTime := some now })
  ∧ (b.state = .closed → recordSuccess cfg b = { b with failureCount := 0 })
  ∧ (b.state = .open → shouldAttemptReset cfg b now = false → ∀ o,
      breakerCall cfg b now o rt =
        (b, .rejected b.failureCount
          (max 0 (cfg.recoveryTimeout - (now - b.lastFailureTime.getD 0))), false))
  ∧ (b.state = .open → shouldAttemptReset cfg b now = true →
      breakerCall cfg b now .success rt =
        (recordSuccess cfg { b with state := .halfOpen, successCount := 0 }, .ok, true) ∧
      breakerCall cfg b now .failure rt =
        (recordFailure cfg { b with state := .halfOpen, successCount := 0 } rt,
          .errorPropagated, true))
  ∧ (b.state = .halfOpen → b.successCount + 1 < cfg.successThreshold →
      recordSuccess cfg b = { b with successCount := b.successCount + 1 })
  ∧ (b.state = .halfOpen → b.successCount + 1 ≥ cfg.successThreshold →
      recordSuccess cfg b =
        { b with state := .closed, failureCount := 0, successCount := 0 })
  ∧ (b.state = .halfOpen →
      recordFailure cfg b now =
        { b with
            state := .open,
            failureCount := cfg.failureThreshold,
            lastFailureTime := some now }) := by
  refine ⟨⟨rfl, rfl, rfl⟩, ?_, ?_, ?_, ?_, ?_, ?_, ?_, ?_⟩
  · intro hs hlt
    simp only [recordFailure, hs]
    rw [if_neg (by omega)]
  · intro hs hge
    simp only [recordFailure, hs]
    rw [if_pos (by omega)]
  · intro hs
    simp only [recordSuccess, hs]
  · intro hs hreset o
    simp only [breakerCall, hs, hreset]
    rfl
  · intro hs hreset
    constructor <;> simp only [breakerCall, hs, hreset] <;> rfl
  · intro hs hlt
    simp only [recordSuccess, hs]
    rw [if_neg (by omega)]
  · intro hs hge
    simp only [recordSuccess, hs]
    rw [if_pos (by omega)]
  · intro hs
    simp only [recordFailure, hs]

/-- Witness for the C2 theorem: concrete transitions of a breaker with
`failure_threshold = 3`, `recovery_timeout = 60`, `success_threshold = 2`. -/
theorem circuit_breaker_transitions_witness :
    recordFailure ⟨3, 60, 2⟩ ⟨.closed, 1, 0, none⟩ 5 = ⟨.closed, 2, 0, some 5⟩
  ∧ recordFailure ⟨3, 60, 2⟩ ⟨.closed, 2, 0, some 5⟩ 6 = ⟨.open, 3, 0, some 6⟩
  ∧ recordSuccess ⟨3, 60, 2⟩ ⟨.closed, 2, 0, some 5⟩ = ⟨.closed, 0, 0, some 5⟩
  ∧ breakerCall ⟨3, 60, 2⟩ ⟨.open, 3, 0, some 6⟩ 7 .success 7 =
      (⟨.open, 3, 0, some 6⟩, .rejected 3 59, false)
  ∧ breakerCall ⟨3, 60, 2⟩ ⟨.open, 3, 0, some 6⟩ 66 .success 66 =
      (⟨.halfOpen, 3, 1, some 6⟩, .ok, true)
  ∧ recordSuccess ⟨3, 60, 2⟩ ⟨.halfOpen, 3, 0, some 6⟩ = ⟨.halfOpen, 3, 1, some 6⟩
  ∧ recordSuccess ⟨3, 60, 2⟩ ⟨.halfOpen, 3, 1, some 6⟩ = ⟨.closed, 0, 0, some 6⟩
  ∧ recordFailure ⟨3, 60, 2⟩ ⟨.halfOpen, 3, 1, some 6⟩ 70 = ⟨.open, 3, 1, some 70⟩ := by
  have t := fun (b : Breaker) (now rt : ℚ) =>
    circuit_breaker_transitions ⟨3, 60, 2⟩ b now rt
  refine ⟨?_, ?_, ?_, ?_, ?_, ?_, ?_, ?_⟩
  · exact (t ⟨.closed, 1, 0, none⟩ 5 5).2.1 rfl (by norm_num)
  · exact (t ⟨.closed, 2, 0, some 5⟩ 6 6).2.2.1 rfl (by norm_num)
  · exact (t ⟨.closed, 2, 0, some 5⟩ 0 0).2.2.2.1 rfl
  · have h59 : (max 0 (60 - (7 - 6)) : ℚ) = 59 := by norm_num
    have h := (t ⟨.open, 3, 0, some 6⟩ 7 7).2.2.2.2.1 rfl
      (by simp [shouldAttemptReset]; norm_num) CallOutcome.success
    simpa [h59] using h
  · have h := (t ⟨.open, 3, 0, some 6⟩ 66 66).2.2.2.2.2.1 rfl
      (by simp [shouldAttemptReset]; norm_num)
    rw [h.1]
    simp [recordSuccess]
  · exact (t ⟨.halfOpen, 3, 0, some 6⟩ 0 0).2.2.2.2.2.2.1 rfl (by norm_num)
  · exact (t ⟨.halfOpen, 3, 1, some 6⟩ 0 0).2.2.2.2.2.2.2.1 rfl (by norm_num)
  · exact (t ⟨.halfOpen, 3, 1, some 6⟩ 70 70).2.2.2.2.2.2.2.2 rfl

/-- C10: for every breaker with `failure_threshold ≥ 1` and every
operation sequence from the initial state, the exposed consecutive
failure counter never exceeds the threshold; a failure while OPEN leaves
the counter unchanged, a failure while HALF_OPEN sets it exactly to the
threshold, and a failure while CLOSED increments it by one (so it stops
growing once the breaker opens). -/
theorem breaker_failure_count_bounded (cfg : BreakerConfig)
    (hth : 1 ≤ cfg.failureThreshold) :
    (∀ ops : List BreakerOp, (runOps cfg ops).failureCount ≤ cfg.failureThreshold)
  ∧ (∀ (b : Breaker) (t : ℚ), b.state = .open →
      (recordFailure cfg b t).failureCount = b.failureCount)
  ∧ (∀ (b : Breaker) (t : ℚ), b.state = .halfOpen →
      (recordFailure cfg b t).failureCount = cfg.failureThreshold)
  ∧ (∀ (b : Breaker) (t : ℚ), b.state = .closed →
      (recordFailure cfg b t).failureCount = b.failureCount + 1) := by
  refine ⟨fun ops => (breakerInv_runOps cfg hth ops).2, ?_, ?_, ?_⟩
  · intro b t hs
    simp [recordFailure, hs]
  · intro b t hs
    simp [recordFailure, hs]
  · intro b t hs
    simp only [recordFailure, hs]
    split <;> rfl

/-- Witness for the C10 theorem: three failures against a threshold of 2
leave the counter at 2. -/
theorem breaker_failure_count_bounded_witness :
    (runOps ⟨2, 60, 1⟩ [.opFailure 1, .opFailure 2, .opFailure 3]).failureCount ≤ 2
  ∧ (recordFailure ⟨2, 60, 1⟩ ⟨.open, 2, 0, some 1⟩ 9).failureCount = 2
  ∧ (recordFailure ⟨2, 60, 1⟩ ⟨.halfOpen, 2, 0, some 1⟩ 9).failureCount = 2
  ∧ (recordFailure ⟨2, 60, 1⟩ ⟨.closed, 0, 0, none⟩ 9).failureCount = 0 + 1 :=
  ⟨(breaker_failure_count_bounded ⟨2, 60, 1⟩ (by norm_num)).1 _,
   (breaker_failure_count_bounded ⟨2, 60, 1⟩ (by norm_num)).2.1 _ 9 rfl,
   (breaker_failure_count_bounded ⟨2, 60, 1⟩ (by norm_num)).2.2.1 _ 9 rfl,
   (breaker_failure_count_bounded ⟨2, 60, 1⟩ (by norm_num)).2.2.2 _ 9 rfl⟩

/-- C3: constructing the typed response envelope with application-level
status 200 and a payload accepted by the payload model succeeds; any
other present status raises the `APIStatusError` built by
`from_response` before the payload is validated — the result is the
status error for every payload validator and every payload, including a
payload that the model would reject. -/
theorem envelope_status_gate {σ δ : Type}
    (validateData : Option Value → Except σ (Option δ))
    (s : Int) (data : Option Value) :
    (∀ d, s = 200 → validateData data = .ok d →
      constructEnvelope validateData (some s) data = .ok ⟨200, d⟩)
  ∧ (s ≠ 200 →
      constructEnvelope validateData (some s) data =
        .error (.apiStatus (statusMessage s) s)) := by
  constructor
  · intro d hs hd
    subst hs
    simp [constructEnvelope, hd]
  · intro hs
    simp [constructEnvelope, hs]

/-- Witness for the C3 theorem: a payload model requiring an integer
payload accepts `status = 200` with a valid payload, while
`status = 404` with a missing payload raises the 404 status error even
under a payload validator that rejects everything. -/
theorem envelope_status_gate_witness :
    constructEnvelope (σ := Unit) (δ := Int)
        (fun o => match o with
          | some (.num n) => .ok (some n)
          | _ => .error ())
        (some 200) (some (.num 5)) = .ok ⟨200, some 5⟩
  ∧ constructEnvelope (σ := Unit) (δ := Int) (fun _ => .error ()) (some 404) none =
      .error (.apiStatus "Not Found - Resource does not exist" 404) := by
  constructor
  · exact (envelope_status_gate _ 200 (some (.num 5))).1 (some 5) rfl rfl
  · have h := (envelope_status_gate (σ := Unit) (δ := Int)
      (fun _ => .error ()) 404 none).2 (by decide)
    simpa [statusMessage] using h

/-- C9 (counterexample): a configuration with neither credential
configured yields headers with no credential header at all, so
`get_headers` does not always return exactly one credential header. -/
theorem get_headers_no_credential_cex :
    getHeaders ⟨none, none⟩ =
      [("Content-Type", "application/json"), ("Accept", "application/json")]
  ∧ credHeaderCount (getHeaders ⟨none, none⟩) = 0 := by
  decide

/-- C9 (amended): `get_headers` always starts with the `Content-Type` and
`Accept` headers; when a non-empty bearer token is configured the single
credential header is `Authorization: Bearer <token>` (the bearer token
taking precedence over any API key), when no truthy bearer token but a
non-empty API key is configured it is `X-API-Key: <key>`, and when a
truthy credential exists there is exactly one credential header; with no
truthy credential there is none. -/
theorem get_headers_spec (c : AuthConfig) :
    ((getHeaders c).take 2 =
      [("Content-Type", "application/json"), ("Accept", "application/json")])
  ∧ (∀ t, c.bearerToken = some t → t ≠ "" →
      getHeaders c =
        [("Content-Type", "application/json"), ("Accept", "application/json"),
          ("Authorization", "Bearer " ++ t)])
  ∧ (credTruthy c.bearerToken = false → ∀ k, c.apiKey = some k → k ≠ "" →
      getHeaders c =
        [("Content-Type", "application/json"), ("Accept", "application/json"),
          ("X-API-Key", k)])
  ∧ (credTruthy c.bearerToken = false → credTruthy c.apiKey = false →
      getHeaders c =
        [("Content-Type", "application/json"), ("Accept", "application/json")])
  ∧ ((credTruthy c.bearerToken || credTruthy c.apiKey) = true →
      credHeaderCount (getHeaders c) = 1) := by
  refine ⟨?_, ?_, ?_, ?_, ?_⟩
  · simp only [getHeaders]
    split
    · rfl
    · split <;> rfl
  · intro t hbt ht
    have hne : t.isEmpty = false := by
      rw [Bool.eq_false_iff]
      intro he
      exact ht ((String.isEmpty_iff t).mp he)
    simp [getHeaders, hbt, credTruthy, hne]
  · intro hbf k hak hk
    have hne : k.isEmpty = false := by
      rw [Bool.eq_false_iff]
      intro he
      exact hk ((String.isEmpty_iff k).mp he)
    have hat : credTruthy (some k) = true := by simp [credTruthy, hne]
    simp [getHeaders, hbf, hak, hat]
  · intro hbf haf
    simp [getHeaders, hbf, haf]
  · intro hor
    rcases Bool.or_eq_true_iff.mp hor with htr | haf
    · simp [getHeaders, htr, credHeaderCount]
    · by_cases hb : credTruthy c.bearerToken = true
      · simp [getHeaders, hb, credHeaderCount]
      · simp only [Bool.not_eq_true] at hb
        simp [getHeaders, hb, haf, credHeaderCount]

/-- Witness for the amended C9 theorem at concrete configurations. -/
theorem get_headers_spec_witness :
    getHeaders ⟨some "k1", some "tok"⟩ =
      [("Content-Type", "application/json"), ("Accept", "application/json"),
        ("Authorization", "Bearer tok")]
  ∧ getHeaders ⟨some "k1", none⟩ =
      [("Content-Type", "application/json"), ("Accept", "application/json"),
        ("X-API-Key", "k1")]
  ∧ credHeaderCount (getHeaders ⟨some "k1", some "tok"⟩) = 1 :=
  ⟨(get_headers_spec ⟨some "k1", some "tok"⟩).2.1 "tok" rfl (by decide),
   (get_headers_spec ⟨some "k1", none⟩).2.2.1 (by decide) "k1" rfl (by decide),
   (get_headers_spec ⟨some "k1", some "tok"⟩).2.2.2.2 (by decide)⟩

/-- C8: `generate_cache_key` is a pure function of the endpoint and the
parameter tree: two parameter maps that are permutations of each other
(with the distinct keys a Python dict guarantees) produce the same
fingerprint, because the canonical JSON serialization sorts the entries by
key before hashing; and for every endpoint and parameter argument the
output is a fixed-length 32-character lowercase-hexadecimal string (a
16-byte blake2b digest rendered by `hexdigest`). -/
theorem cache_key_deterministic (endpoint : String) (l₁ l₂ : List (String × Value))
    (hperm : l₁.Perm l₂) (hnd : (l₁.map Prod.fst).Nodup) :
    generateCacheKey endpoint (some l₁) = generateCacheKey endpoint (some l₂)
  ∧ (∀ (e : String) (p : Option (List (String × Value))),
      (generateCacheKey e p).length = 32)
  ∧ (∀ (e : String) (p : Option (List (String × Value))),
      ∀ c ∈ (generateCacheKey e p).toList, c ∈ hexDigits) := by
  refine ⟨?_, ?_, ?_⟩
  · unfold generateCacheKey
    have h := sortEntries_eq_of_perm l₁ l₂ hperm hnd
    simp only [Option.getD_some]
    rw [dumpsValue_dict, dumpsValue_dict, h]
  · intro e p
    unfold generateCacheKey
    rw [String.length_mk, hexOfBytes_length, blake2b_length_16]
  · intro e p
    unfold generateCacheKey
    exact hexOfBytes_mem _

/-- Witness for the C8 theorem: the two insertion orders of a two-key
parameter map hash to the same fingerprint. -/
theorem cache_key_deterministic_witness :
    [("a", Value.num 1), ("b", Value.num 2)].Perm [("b", Value.num 2), ("a", Value.num 1)]
  ∧ ([("a", Value.num 1), ("b", Value.num 2)].map Prod.fst).Nodup
  ∧ generateCacheKey "/v2/product/1/" (some [("a", Value.num 1), ("b", Value.num 2)]) =
      generateCacheKey "/v2/product/1/" (some [("b", Value.num 2), ("a", Value.num 1)]) :=
  have hperm : [("a", Value.num 1), ("b", Value.num 2)].Perm
      [("b", Value.num 2), ("a", Value.num 1)] :=
    List.Perm.swap ("b", Value.num 2) ("a", Value.num 1) []
  have hnd : ([("a", Value.num 1), ("b", Value.num 2)].map Prod.fst).Nodup := by
    simp
  ⟨hperm, hnd,
   (cache_key_deterministic "/v2/product/1/" _ _ hperm hnd).1⟩


end DigikalaSDK
